import Mathlib

/-!
Verification of the Pacifica volume bot (`pacifica_bot.py`).

The bot's numeric computations are over Python floats; here they are embedded
as exact rationals.  Network calls (positions, open orders, history, prices,
order placement, leverage updates) are modelled as oracles supplied through
environment records, so each operation becomes a pure function of its inputs
and of the oracle responses, together with a trace of the externally visible
requests it issues.
-/

namespace Pacifica

/-- Order side, mirroring `pacifica_sdk.enums.Side` (BID = long, ASK = short). -/
inductive Side where
  | bid
  | ask
deriving DecidableEq, Repr

/-- An account position as reported by the positions endpoint.
`leverage` is `none` when the response carries no usable leverage field
(mirroring the `hasattr(pos, 'leverage') and pos.leverage` probe, under which
a zero value is also unusable). -/
structure Position where
  symbol : String
  amount : ℚ
  entryPrice : ℚ
  leverage : Option ℤ
deriving DecidableEq, Repr

/-- The flatness threshold `0.000001` used throughout the bot (written with
`mkRat` so that concrete comparisons reduce inside the kernel). -/
def flatEps : ℚ := mkRat 1 1000000

/-- Executable absolute value on rationals (Python `abs`). -/
def ratAbs (q : ℚ) : ℚ := if q < 0 then -q else q

/-- Fee rate chosen in `trading_cycle` and `_calculate_pnl`:
maker 0.02 percent, taker 0.05 percent. -/
def feeRate (useMakerOrders : Bool) : ℚ :=
  if useMakerOrders then 0.0002 else 0.0005

/-- The fixed 5 percent safety buffer of `trading_cycle`. -/
def safetyBuffer : ℚ := 0.05

/-- Position sizing from `trading_cycle` (lines 1214-1249): given the balance,
the sampled fraction of balance and the leverage, returns
`(position_size_base, position_size_usd)`, the base notional taken from the
balance and the leveraged notional handed to `place_order`. -/
def positionSizing (balance positionPercent leverage : ℚ)
    (useMakerOrders : Bool) : ℚ × ℚ :=
  let positionSizeBase := balance * positionPercent
  let fr := feeRate useMakerOrders
  let availableBalance := balance * (1 - safetyBuffer)
  let maxPositionBase := availableBalance / (1 + fr * 2)
  let positionSizeBase := min positionSizeBase maxPositionBase
  let positionSizeUsd := positionSizeBase * leverage
  let requiredBalance := positionSizeBase + positionSizeBase * fr * 2
  if balance < requiredBalance then
    let maxPercent := (balance * 0.95) / (balance * (1 + fr * 2))
    let pp := min positionPercent maxPercent
    let base := balance * pp
    (base, base * leverage)
  else
    (positionSizeBase, positionSizeUsd)

/-- `_calculate_pnl`: signed relative price move times the notional, minus the
round-trip fees. -/
def calculate_pnl (entry exitPrice size : ℚ) (side : Side)
    (useMakerOrders : Bool) : ℚ :=
  let priceDiff :=
    match side with
    | Side.bid => exitPrice - entry
    | Side.ask => entry - exitPrice
  let pnl := if 0 < entry then priceDiff / entry * size else 0
  let fees := size * feeRate useMakerOrders * 2
  pnl - fees

/-- Round-half-to-even on rationals, the rounding used by Python float
formatting `f"{x:.df}"`. -/
def roundHalfEven (x : ℚ) : ℤ :=
  if Int.fract x < 1 / 2 then ⌊x⌋
  else if 1 / 2 < Int.fract x then ⌊x⌋ + 1
  else if ⌊x⌋ % 2 = 0 then ⌊x⌋ else ⌊x⌋ + 1

/-- The value denoted by formatting a number with `d` fixed decimal places
(Python `f"{x:.df}"`); stripping trailing zeros does not change the value. -/
def formatFixed (x : ℚ) (d : ℕ) : ℚ :=
  (roundHalfEven (x * 10 ^ d) : ℚ) / 10 ^ d

/-- Value computed by `round_to_lot` before formatting: for a positive lot
size, the amount is floored to a multiple of the lot size
(`(amount // lot_size) * lot_size`); a non-positive lot size returns the
amount unchanged. -/
def round_to_lot (amount lotSize : ℚ) : ℚ :=
  if lotSize ≤ 0 then amount
  else (⌊amount / lotSize⌋ : ℚ) * lotSize

/-- The value of the string returned by `round_to_lot`: the floored value
formatted with `d` decimal places, `d` being the decimal precision of the
lot size string. -/
def round_to_lot_str (amount lotSize : ℚ) (d : ℕ) : ℚ :=
  if lotSize ≤ 0 then amount
  else formatFixed (round_to_lot amount lotSize) d

/-- Value computed by `round_to_tick`: price rounded to the nearest multiple
of the tick size (Python `round`, half to even); non-positive tick size
returns the price unchanged. -/
def round_to_tick (price tickSize : ℚ) : ℚ :=
  if tickSize ≤ 0 then price
  else (roundHalfEven (price / tickSize) : ℚ) * tickSize

/-! ## Leverage reconciler (`set_leverage`) -/

/-- First position of the list on the given symbol whose amount magnitude
exceeds the flatness threshold — the position at which both scan loops of
`set_leverage` stop (`break`). -/
def firstOpenPos (symbol : String) (ps : List Position) : Option Position :=
  ps.find? fun p => p.symbol == symbol && decide (flatEps < ratAbs p.amount)

/-- Leverage of the first open position on the symbol, `none` when there is
no such position or its leverage field is absent or zero (Python truthiness
of `pos.leverage`). -/
def openPosLeverage (symbol : String) (ps : List Position) : Option ℤ :=
  (firstOpenPos symbol ps).bind fun p =>
    match p.leverage with
    | some l => if l = 0 then none else some l
    | none => none

/-- Outcome of one `exchange.update_leverage` request, as classified by
`set_leverage`: acceptance; an `ApiError` that the substring heuristics
class as an invalid-leverage rejection; any other `ApiError`; a non-ApiError
exception whose text matches the invalid-leverage heuristics; any other
exception. -/
inductive UpdResult where
  | ok
  | apiInvalid
  | apiOther
  | excInvalid
  | excOther
deriving DecidableEq, Repr

/-- Oracle environment for one `set_leverage` call: the positions returned by
the pre-check query, the positions returned by the re-query inside the
`ApiError` handler, the market maximum leverage (`none` when
`get_max_leverage` fails, `some 0` behaving as absent by Python truthiness),
and the exchange response to an update request for each leverage value. -/
structure LevEnv where
  positionsPre : List Position
  positionsOnError : List Position
  maxLev : Option ℤ
  upd : ℤ → UpdResult

/-- Integers `lo, lo+1, ..., hi` (empty when `hi < lo`), the values visited by
Python `range(lo, hi+1)`. -/
def intRange (lo hi : ℤ) : List ℤ :=
  (List.range (hi + 1 - lo).toNat).map fun (i : ℕ) => lo + (i : ℤ)

/-- Candidates of the downward recovery scan `range(leverage-1, 0, -1)`:
`lev-1` down to `1`. -/
def downCands (lev : ℤ) : List ℤ :=
  (intRange 1 (lev - 1)).reverse

/-- Try each candidate leverage in order, committing to the first value the
exchange accepts.  Returns the success flag and the list of leverage values
actually sent to the exchange. -/
def scanTry (env : LevEnv) : List ℤ → Bool × List ℤ
  | [] => (false, [])
  | c :: rest =>
    match env.upd c with
    | UpdResult.ok => (true, [c])
    | _ =>
      let r := scanTry env rest
      (r.1, c :: r.2)

/-- The clamp of `set_leverage` step 2: when market metadata is available
(and its `max_leverage` is truthy), a value above the maximum is lowered to
it, and otherwise a value below 1 is raised to 1. -/
def clampLev (maxLev : Option ℤ) (lev : ℤ) : ℤ :=
  match maxLev with
  | none => lev
  | some m =>
    if m = 0 then lev
    else if m < lev then m
    else if lev < 1 then 1
    else lev

/-- Candidates of the upward recovery scan
`range(leverage+1, max_leverage+1)`, empty when the market maximum is absent
or zero (Python truthiness of `max_leverage`). -/
def upCands : Option ℤ → ℤ → List ℤ
  | some m, lev => if m = 0 then [] else intRange (lev + 1) m
  | none, _ => []

/-- The request-issuing part of `set_leverage` for an already-clamped value:
issue the update request and, on an invalid-leverage rejection, run the
recovery scan (upward when the `ApiError` handler re-detects an open
position with a known leverage, downward otherwise; always downward for
non-ApiError invalid-leverage exceptions).  Returns the reported success
and the list of leverage values sent to the exchange, in order. -/
def setLeverageIssue (env : LevEnv) (symbol : String) (lev : ℤ) :
    Bool × List ℤ :=
  match env.upd lev with
  | UpdResult.ok => (true, [lev])
  | UpdResult.apiOther => (false, [lev])
  | UpdResult.excOther => (false, [lev])
  | UpdResult.excInvalid =>
    ((scanTry env (downCands lev)).1, lev :: (scanTry env (downCands lev)).2)
  | UpdResult.apiInvalid =>
    match (firstOpenPos symbol env.positionsOnError).isSome,
        openPosLeverage symbol env.positionsOnError with
    | true, some k =>
      if lev < k then (false, [lev])
      else
        ((scanTry env (upCands env.maxLev lev)).1,
         lev :: (scanTry env (upCands env.maxLev lev)).2)
    | _, _ =>
      ((scanTry env (downCands lev)).1, lev :: (scanTry env (downCands lev)).2)

/-- The part of `set_leverage` from the max-leverage clamp onwards. -/
def setLeverageFrom (env : LevEnv) (symbol : String) (lev0 : ℤ) :
    Bool × List ℤ :=
  setLeverageIssue env symbol (clampLev env.maxLev lev0)

/-- `set_leverage(symbol, leverage)`: when an open position with known
leverage `k` exists, a request below `k` is raised to `k` and a request equal
to `k` succeeds without contacting the exchange; then the clamped value is
sent, with rejection recovery as in `setLeverageFrom`. -/
def set_leverage (env : LevEnv) (symbol : String) (requested : ℤ) :
    Bool × List ℤ :=
  match openPosLeverage symbol env.positionsPre with
  | some k =>
    if requested < k then setLeverageFrom env symbol k
    else if requested = k then (true, [])
    else setLeverageFrom env symbol requested
  | none => setLeverageFrom env symbol requested

/-! ## Fill reconciliation engine (`_wait_for_order_fill`, limit-order path) -/

/-- `max_wait`: total waiting budget in seconds. -/
def maxWait : ℕ := 300

/-- `reposition_timeout`: seconds before the single allowed reposition. -/
def repositionTimeout : ℕ := 90

/-- `check_interval`: polling cadence in seconds. -/
def checkInterval : ℕ := 5

/-- The fixed aggressive slippage (0.01 percent) used for the replacement
order. -/
def aggressiveSlippage : ℚ := 0.0001

/-- An open order as reported by the open-orders endpoint. -/
structure OpenOrder where
  orderId : ℕ
  price : ℚ
  filledAmount : ℚ
  initialAmount : ℚ
  cancelledAmount : ℚ
deriving DecidableEq, Repr

/-- An order-history record (`get_order_history_by_id`, first item); `price`
is `none` when the record has no truthy price field. -/
structure HistOrder where
  filledAmount : ℚ
  initialAmount : ℚ
  price : Option ℚ
deriving DecidableEq, Repr

/-- Oracle environment for the limit-order polling loop, indexed by the
iteration counter: positions at the head of each iteration; open orders
(`none` models a swallowed query exception such as a CloudFront block);
positions re-queried after a 99-percent-filled open order; order history when
the order is absent from open orders; the fresh mark price fetched during a
reposition (`none` falls back to the original price); the tick size; and the
replacement order placement, `some id` carrying the new order id and `none`
modelling a failed placement. -/
structure FillEnv where
  positions : ℕ → List Position
  openOrders : ℕ → Option (List OpenOrder)
  positionsRecheck : ℕ → List Position
  history : ℕ → Option HistOrder
  newPrice : ℕ → Option ℚ
  tickSize : Option ℚ
  placeOrder : ℕ → Option ℕ

/-- Externally visible actions of the polling loop: the single allowed
reposition (recorded with the values of `elapsed` and `total_elapsed` at that
moment), the cancellation of the stale order during a reposition, and the
cancellation of the pending order on timeout. -/
inductive FillEvent where
  | reposition (elapsed totalElapsed : ℕ)
  | cancelStale (orderId : ℕ)
  | cancelTimeout (orderId : ℕ)
deriving DecidableEq, Repr

/-- Loop state of `_wait_for_order_fill`: the pending order id and limit
price (both replaced by a reposition), the inner `elapsed` counter (reset by
a reposition), `total_elapsed` (never reset), the reposition flag, the
iteration counter indexing the oracles, and the action trace. -/
structure FillState where
  orderId : ℕ
  limitPrice : ℚ
  elapsed : ℕ
  totalElapsed : ℕ
  repositioned : Bool
  iter : ℕ
  events : List FillEvent
deriving DecidableEq, Repr

/-- First position on the market with amount magnitude above the flatness
threshold — the fill signal the loop treats as authoritative. -/
def firstNonFlat (market : String) (ps : List Position) : Option Position :=
  ps.find? fun p => p.symbol == market && decide (flatEps < ratAbs p.amount)

/-- The open-orders / order-history consultation of one polling iteration
(the body of the inner `try`): `some price` means the iteration resolves the
order as filled at that price. -/
def ordersSignal (env : FillEnv) (market : String) (s : FillState) :
    Option ℚ :=
  match env.openOrders s.iter with
  | none => none
  | some orders =>
    match orders.find? (fun o => o.orderId == s.orderId) with
    | some o =>
      if 0 < o.initialAmount then
        let remaining := o.initialAmount - o.filledAmount - o.cancelledAmount
        let filledPercent := o.filledAmount / o.initialAmount * 100
        if remaining ≤ o.initialAmount * 0.01 ∨ 99 ≤ filledPercent then
          match firstNonFlat market (env.positionsRecheck s.iter) with
          | some p => some p.entryPrice
          | none => some o.price
        else none
      else none
    | none =>
      match env.history s.iter with
      | some h =>
        if 0 < h.initialAmount ∧ h.initialAmount * 0.99 ≤ h.filledAmount then
          let p1 := h.price.getD s.limitPrice
          some (if p1 = 0 then s.limitPrice else p1)
        else none
      | none => none

/-- The limit price of the replacement order placed by a reposition: fresh
mark price (falling back to the original) shifted by the aggressive 0.01
percent offset toward the book, rounded to tick size when available. -/
def newFillLimit (env : FillEnv) (side : Side) (currentPrice : ℚ)
    (s : FillState) : ℚ :=
  let newCurrentPrice := (env.newPrice s.iter).getD currentPrice
  let rawPrice :=
    match side with
    | Side.bid => newCurrentPrice * (1 - aggressiveSlippage)
    | Side.ask => newCurrentPrice * (1 + aggressiveSlippage)
  match env.tickSize with
  | some t => round_to_tick rawPrice t
  | none => rawPrice

/-- Outcome of one iteration of the polling loop: either the loop returns,
or it continues with an updated state. -/
inductive StepRes where
  | done (r : Option ℚ × List FillEvent)
  | next (s : FillState)
deriving DecidableEq, Repr

/-- One iteration of the `_wait_for_order_fill` polling loop (the body of
the `while total_elapsed < max_wait` loop): check positions, then open
orders and history, then possibly reposition once (cancelling the stale
order, placing the replacement and resetting the inner elapsed counter —
a failed replacement placement aborts with no fill), then advance both
time counters by `check_interval`. -/
def fillStep (env : FillEnv) (market : String) (side : Side)
    (currentPrice : ℚ) (s : FillState) : StepRes :=
  match firstNonFlat market (env.positions s.iter) with
  | some p => StepRes.done (some p.entryPrice, s.events)
  | none =>
    match ordersSignal env market s with
    | some price => StepRes.done (some price, s.events)
    | none =>
      if repositionTimeout ≤ s.elapsed ∧ s.repositioned = false ∧
          s.totalElapsed < maxWait - 60 then
        match env.placeOrder s.iter with
        | some newId =>
          StepRes.next
            { orderId := newId
              limitPrice := newFillLimit env side currentPrice s
              elapsed := checkInterval
              totalElapsed := s.totalElapsed + checkInterval
              repositioned := true
              iter := s.iter + 1
              events := s.events ++
                [FillEvent.cancelStale s.orderId,
                 FillEvent.reposition s.elapsed s.totalElapsed] }
        | none =>
          StepRes.done (none, s.events ++ [FillEvent.cancelStale s.orderId])
      else
        StepRes.next
          { s with
            elapsed := s.elapsed + checkInterval
            totalElapsed := s.totalElapsed + checkInterval
            iter := s.iter + 1 }

/-- The polling loop of `_wait_for_order_fill` for a limit order; on running
out of time the pending order is cancelled and no fill is reported.  The
fuel bounds the recursion; since `total_elapsed` grows every iteration, fuel
`maxWait` is never exhausted before the time guard when starting from
`total_elapsed = 0`. -/
def fillGo (env : FillEnv) (market : String) (side : Side)
    (currentPrice : ℚ) : ℕ → FillState → Option ℚ × List FillEvent
  | 0, s => (none, s.events ++ [FillEvent.cancelTimeout s.orderId])
  | fuel + 1, s =>
    if maxWait ≤ s.totalElapsed then
      (none, s.events ++ [FillEvent.cancelTimeout s.orderId])
    else
      match fillStep env market side currentPrice s with
      | StepRes.done r => r
      | StepRes.next s1 => fillGo env market side currentPrice fuel s1

/-- `_wait_for_order_fill` for a limit order, started on a freshly placed
order: returns the resolved entry price (`none` meaning no fill) and the
trace of cancellations and repositions. -/
def wait_for_order_fill (env : FillEnv) (market : String) (side : Side)
    (orderId : ℕ) (limitPrice currentPrice : ℚ) : Option ℚ × List FillEvent :=
  fillGo env market side currentPrice maxWait
    { orderId := orderId
      limitPrice := limitPrice
      elapsed := 0
      totalElapsed := 0
      repositioned := false
      iter := 0
      events := [] }

/-- Recognizer for reposition events. -/
def isRepositionEvent : FillEvent → Bool
  | FillEvent.reposition _ _ => true
  | _ => false

/-- Recognizer for timeout cancellations. -/
def isTimeoutCancel : FillEvent → Bool
  | FillEvent.cancelTimeout _ => true
  | _ => false

/-- A reposition event respects the loop's guard: the inner elapsed counter
has reached `reposition_timeout` and strictly more than 60 seconds of the
`max_wait` budget remain. -/
def reposGuardOk : FillEvent → Prop
  | FillEvent.reposition e t => repositionTimeout ≤ e ∧ t < maxWait - 60
  | _ => True

instance : DecidablePred reposGuardOk := by
  intro e
  cases e <;> simp only [reposGuardOk] <;> infer_instance

/-! ## Market data gateway (`get_positions`) -/

/-- Whether the first character list is a prefix of the second. -/
def listHasPrefix : List Char → List Char → Bool
  | [], _ => true
  | _ :: _, [] => false
  | p :: ps, c :: cs => p == c && listHasPrefix ps cs

/-- Whether the pattern occurs as a contiguous sublist. -/
def listContains (pat : List Char) : List Char → Bool
  | [] => pat.isEmpty
  | c :: cs => listHasPrefix pat (c :: cs) || listContains pat cs

/-- Substring containment on strings, the Python `pat in s` test used by the
error-text heuristics of `get_positions`. -/
def containsStr (s pat : String) : Bool :=
  listContains pat.data s.data

/-- The rate-limit / edge-block classification of `get_positions`: an
exception is retryable when its text contains CloudFront, 403 or the
malformed-JSON marker. -/
def retryableMsg (msg : String) : Bool :=
  containsStr msg "CloudFront" || containsStr msg "403" ||
    containsStr msg "Failed to decode JSON"

/-- Oracle outcome of one positions request: a successful response or an
exception carrying its text. -/
inductive PosAttempt where
  | ok (ps : List Position)
  | err (msg : String)
deriving DecidableEq, Repr

/-- Externally visible behaviour of one `get_positions` call: the network
attempts made, the backoff waits between them, the debug log on a retryable
error and the error-level log on any other exception. -/
inductive GPEvent where
  | call (attempt : ℕ)
  | wait (seconds : ℚ)
  | logDebug
  | logError
deriving DecidableEq, Repr

/-- The backoff wait before retry number `attempt + 1`: base `2 * 2^attempt`
capped at 10 seconds in fast mode, base `3 * 2^attempt` capped at 15 seconds
otherwise, plus the sampled jitter (subject to the cap). -/
def backoffWait (fastMode : Bool) (attempt : ℕ) (jitter : ℚ) : ℚ :=
  if fastMode then min (2 * 2 ^ attempt + jitter) 10
  else min (3 * 2 ^ attempt + jitter) 15

/-- The retry loop of `get_positions`, from attempt number `attempt` with
`fuel = retries - attempt` attempts remaining (the exhausted loop falls
through to the final `return []`). -/
def getPositionsGo (env : ℕ → PosAttempt) (jitter : ℕ → ℚ)
    (fastMode : Bool) (retries : ℕ) :
    ℕ → ℕ → List Position × List GPEvent
  | _, 0 => ([], [])
  | attempt, fuel + 1 =>
    match env attempt with
    | PosAttempt.ok ps => (ps, [GPEvent.call attempt])
    | PosAttempt.err msg =>
      if retryableMsg msg then
        if attempt < retries - 1 then
          ((getPositionsGo env jitter fastMode retries (attempt + 1) fuel).1,
           GPEvent.call attempt ::
             GPEvent.wait (backoffWait fastMode attempt (jitter attempt)) ::
             (getPositionsGo env jitter fastMode retries (attempt + 1) fuel).2)
        else ([], [GPEvent.call attempt, GPEvent.logDebug])
      else ([], [GPEvent.call attempt, GPEvent.logError])

/-- `get_positions(retries, fast_mode)`: bounded retries with capped backoff
on rate-limit / edge-block exceptions, immediate empty-list degradation on
any other exception, empty list on exhaustion; the call never raises. -/
def get_positions (env : ℕ → PosAttempt) (jitter : ℕ → ℚ)
    (fastMode : Bool) (retries : ℕ) : List Position × List GPEvent :=
  getPositionsGo env jitter fastMode retries 0 retries

/-! ## Trading cycle orchestrator (`trading_cycle`) -/

/-- Python truthiness of an optional balance: present and nonzero. -/
def truthy : Option ℚ → Bool
  | some b => b != 0
  | none => false

/-- The balance `trading_cycle` works with: the cached balance when truthy,
otherwise the freshly fetched one. -/
def effectiveBalance (cached fetched : Option ℚ) : Option ℚ :=
  if truthy cached then cached else fetched

/-- Oracle environment for one `trading_cycle`: the selected market, the
funding-based side, the fetched balance, the mark price, the sampled
position-size fraction, and the outcomes of order placement, fill
reconciliation, TP/SL attachment, position close and exit-price fetch. -/
structure CycleEnv where
  market : Option String
  side : Option Side
  fetchedBalance : Option ℚ
  currentPrice : Option ℚ
  positionPercent : ℚ
  entryOk : Bool
  fillPrice : Option ℚ
  tpslOk : Bool
  closeOk : Bool
  exitPrice : Option ℚ

/-- The orchestrator state that survives across cycles: the conditionally
cached balance, the fixed per-run parameters and the cumulative statistics. -/
structure BotState where
  cachedBalance : Option ℚ
  currentLeverage : ℚ
  currentSlippage : ℚ
  useMakerOrders : Bool
  targetVolume : ℚ
  totalVolume : ℚ
  totalPnl : ℚ
  tradesCount : ℕ
deriving DecidableEq, Repr

/-- The conditional balance caching of `trading_cycle`: the fetched balance
is written to the cache only when the cache was absent (or falsy) and the
fetched value is truthy. -/
def cacheBalance (env : CycleEnv) (s : BotState) : BotState :=
  if truthy s.cachedBalance then s
  else if truthy env.fetchedBalance then
    { s with cachedBalance := env.fetchedBalance }
  else s

/-- The statistics update after a confirmed close with a known exit price:
accumulate the realized PnL, add both legs of the leveraged notional to the
volume, and count the trade. -/
def closeStats (side : Side) (entryPrice exitPrice balance
    positionPercent : ℚ) (s1 : BotState) : BotState :=
  { s1 with
    totalPnl := s1.totalPnl + calculate_pnl entryPrice exitPrice
      (positionSizing balance positionPercent s1.currentLeverage
        s1.useMakerOrders).2 side s1.useMakerOrders
    totalVolume := s1.totalVolume +
      (positionSizing balance positionPercent s1.currentLeverage
        s1.useMakerOrders).2 * 2
    tradesCount := s1.tradesCount + 1 }

/-- The cycle's return value: target reached exactly when the accumulated
volume now meets it. -/
def cycleResult (s2 : BotState) : Bool × BotState :=
  if s2.targetVolume ≤ s2.totalVolume then (true, s2) else (false, s2)

/-- One `trading_cycle`: cleanup (touches no statistics), early exit when the
volume target is already met, market and side selection, balance caching,
sizing, entry placement, fill reconciliation, TP/SL and hold (no statistics),
close, and — only after a confirmed close with an available exit price —
the PnL / volume / trade-count accounting.  Returns whether the target is
reached and the new state. -/
def trading_cycle (env : CycleEnv) (s : BotState) : Bool × BotState :=
  if s.targetVolume ≤ s.totalVolume then (true, s)
  else
    match env.market with
    | none => (false, s)
    | some _ =>
      match env.side with
      | none => (false, s)
      | some side =>
        match effectiveBalance s.cachedBalance env.fetchedBalance with
        | none => (false, cacheBalance env s)
        | some balance =>
          if balance ≤ 0 then (false, cacheBalance env s)
          else
            match env.currentPrice with
            | none => (false, cacheBalance env s)
            | some _ =>
              match env.entryOk with
              | false => (false, cacheBalance env s)
              | true =>
                match env.fillPrice with
                | none => (false, cacheBalance env s)
                | some entryPrice =>
                  match env.closeOk with
                  | false => (false, cacheBalance env s)
                  | true =>
                    match env.exitPrice with
                    | none => (false, cacheBalance env s)
                    | some exitPrice =>
                      cycleResult (closeStats side entryPrice exitPrice
                        balance env.positionPercent (cacheBalance env s))

/-! ## Concrete evaluation environments -/

/-- A 1-unit long BTC position at entry 100 with leverage 3. -/
def posBTC3 : Position :=
  { symbol := "BTC", amount := 1, entryPrice := 100, leverage := some 3 }

/-- Exchange that classifies every leverage update as a generic-exception
invalid-leverage rejection, while a 3x-leverage BTC position is open. -/
def envLevExc : LevEnv :=
  { positionsPre := [posBTC3]
    positionsOnError := [posBTC3]
    maxLev := some 10
    upd := fun _ => UpdResult.excInvalid }

/-- Exchange that accepts every leverage update, with the same open 3x BTC
position. -/
def envLevOk : LevEnv :=
  { positionsPre := [posBTC3]
    positionsOnError := [posBTC3]
    maxLev := some 10
    upd := fun _ => UpdResult.ok }

/-- Accepting exchange with no open position. -/
def envLevFlat : LevEnv :=
  { positionsPre := []
    positionsOnError := []
    maxLev := some 10
    upd := fun _ => UpdResult.ok }

/-- A 1-unit BTC position at entry price 100 with no leverage field. -/
def posFillBTC : Position :=
  { symbol := "BTC", amount := 1, entryPrice := 100, leverage := none }

/-- Fill environment whose very first positions poll reports a non-flat BTC
position. -/
def envFillPos : FillEnv :=
  { positions := fun _ => [posFillBTC]
    openOrders := fun _ => none
    positionsRecheck := fun _ => []
    history := fun _ => none
    newPrice := fun _ => none
    tickSize := none
    placeOrder := fun _ => none }

/-- Fill environment with no fill signal at any iteration and successful
replacement-order placement. -/
def envFillSilent : FillEnv :=
  { positions := fun _ => []
    openOrders := fun _ => none
    positionsRecheck := fun _ => []
    history := fun _ => none
    newPrice := fun _ => none
    tickSize := none
    placeOrder := fun _ => some 2 }

/-- The initial polling state for order 1 at limit price 100. -/
def fillStart : FillState :=
  { orderId := 1
    limitPrice := 100
    elapsed := 0
    totalElapsed := 0
    repositioned := false
    iter := 0
    events := [] }

/-- A fully successful cycle environment: BTC long, balance 1000 fetched,
price 100, half the balance, entry filled at 100, close confirmed, exit 101. -/
def envCycleFull : CycleEnv :=
  { market := some "BTC"
    side := some Side.bid
    fetchedBalance := some 1000
    currentPrice := some 100
    positionPercent := 1 / 2
    entryOk := true
    fillPrice := some 100
    tpslOk := true
    closeOk := true
    exitPrice := some 101 }

/-- The same successful cycle except that the exit-price fetch fails. -/
def envCycleNoExit : CycleEnv :=
  { market := some "BTC"
    side := some Side.bid
    fetchedBalance := some 1000
    currentPrice := some 100
    positionPercent := 1 / 2
    entryOk := true
    fillPrice := some 100
    tpslOk := true
    closeOk := true
    exitPrice := none }

/-- Fresh orchestrator state: 5x leverage, maker mode, 10000 target, no
statistics yet. -/
def stateFresh : BotState :=
  { cachedBalance := none
    currentLeverage := 5
    currentSlippage := 0.0005
    useMakerOrders := true
    targetVolume := 10000
    totalVolume := 0
    totalPnl := 0
    tradesCount := 0 }

/-! ## Theorems -/

/-- Python `round` and float formatting leave an integer unchanged. -/
theorem roundHalfEven_intCast (m : ℤ) : roundHalfEven (m : ℚ) = m := by
  unfold roundHalfEven
  rw [Int.fract_intCast, Int.floor_intCast]
  norm_num

/-- Fixed-point formatting is exact on rationals that are exact multiples of
the format's resolution. -/
theorem formatFixed_exact (x : ℚ) (d : ℕ) (m : ℤ) (h : x * 10 ^ d = m) :
    formatFixed x d = x := by
  unfold formatFixed
  rw [h, roundHalfEven_intCast, ← h, mul_div_assoc, div_self, mul_one]
  exact pow_ne_zero d (by norm_num)

/-- C1 counterexample.  In scenario A (balance 1000, sampled fraction 0.8,
leverage 5, maker fee 0.0002) the base notional is the minimum
min(800, 949.62...) = 800, so the leveraged notional handed to
`place_order` is exactly 4000 — not approximately 4748.10 as claimed
(it misses that figure by more than 700 dollars). -/
theorem scenarioA_cex :
    (positionSizing 1000 (8 / 10) 5 true).2 = 4000 ∧
    ¬ |(positionSizing 1000 (8 / 10) 5 true).2 - 47481 / 10| ≤ 700 := by
  constructor
  · norm_num [positionSizing, feeRate, safetyBuffer]
  · norm_num [positionSizing, feeRate, safetyBuffer, abs_le]

/-- C1 amended.  In scenario A the base notional is exactly
800 = 1000 times 0.8 (which is indeed at most 1000 times 0.95 / 1.0004,
about 949.62), and the leveraged notional passed to `place_order` is
800 times 5 = 4000. -/
theorem scenarioA_amended :
    (positionSizing 1000 (8 / 10) 5 true).1 = 800 ∧
    (positionSizing 1000 (8 / 10) 5 true).1 ≤ 1000 * 0.95 / (1 + 2 * 0.0002) ∧
    (positionSizing 1000 (8 / 10) 5 true).2 = 800 * 5 := by
  refine ⟨?_, ?_, ?_⟩ <;> norm_num [positionSizing, feeRate, safetyBuffer]

/-- C4.  For every balance B greater than 0 and every sampled fraction, the
base notional equals min(B times f, B times 0.95 / (1 + 2 times the fee
rate)) — in particular it never exceeds the second bound — and the order
notional handed to `place_order` is the base notional times the leverage.
(The secondary `required_balance` re-guard never fires for B greater than 0,
because the base notional already respects the 5 percent buffer.) -/
theorem position_sizing_bound (B f lev : ℚ) (mk : Bool) (hB : 0 < B) :
    (positionSizing B f lev mk).1 =
      min (B * f) (B * 0.95 / (1 + 2 * feeRate mk)) ∧
    (positionSizing B f lev mk).1 ≤ B * 0.95 / (1 + 2 * feeRate mk) ∧
    (positionSizing B f lev mk).2 = (positionSizing B f lev mk).1 * lev := by
  have hfr0 : (0 : ℚ) ≤ feeRate mk := by
    unfold feeRate; split <;> norm_num
  have hfr1 : (0 : ℚ) < 1 + feeRate mk * 2 := by linarith
  have hshape : B * (1 - safetyBuffer) / (1 + feeRate mk * 2) =
      B * 0.95 / (1 + 2 * feeRate mk) := by
    have h1 : (1 : ℚ) - safetyBuffer = 0.95 := by norm_num [safetyBuffer]
    have h2 : 1 + feeRate mk * 2 = 1 + 2 * feeRate mk := by ring
    rw [h1, h2]
  have hmin : min (B * f) (B * (1 - safetyBuffer) / (1 + feeRate mk * 2)) ≤
      B * (1 - safetyBuffer) / (1 + feeRate mk * 2) := min_le_right _ _
  have hb2 : min (B * f) (B * (1 - safetyBuffer) / (1 + feeRate mk * 2)) *
      (1 + feeRate mk * 2) ≤ B * (1 - safetyBuffer) :=
    (le_div_iff₀ hfr1).mp hmin
  have hguard : ¬ (B <
      min (B * f) (B * (1 - safetyBuffer) / (1 + feeRate mk * 2)) +
      min (B * f) (B * (1 - safetyBuffer) / (1 + feeRate mk * 2)) *
        feeRate mk * 2) := by
    have hbuf : B * (1 - safetyBuffer) < B := by
      unfold safetyBuffer; nlinarith
    nlinarith [hb2]
  unfold positionSizing
  rw [if_neg hguard]
  exact ⟨by rw [hshape], by rw [← hshape]; exact hmin, rfl⟩

/-- C4 witness at balance 1000, fraction one half, leverage 5, maker mode. -/
theorem position_sizing_bound_witness :
    (positionSizing 1000 (1 / 2) 5 true).1 =
      min ((1000 : ℚ) * (1 / 2)) (1000 * 0.95 / (1 + 2 * feeRate true)) ∧
    (positionSizing 1000 (1 / 2) 5 true).1 ≤
      1000 * 0.95 / (1 + 2 * feeRate true) ∧
    (positionSizing 1000 (1 / 2) 5 true).2 =
      (positionSizing 1000 (1 / 2) 5 true).1 * 5 :=
  position_sizing_bound 1000 (1 / 2) 5 true (by norm_num)

/-- C3.  For x at least 0 and positive lot size L exactly representable with
its own d decimal digits, the value of the string returned by `round_to_lot`
is a non-negative multiple of L no greater than x (truncation toward zero),
the fixed-point formatting and trailing-zero stripping being exact on it;
and with lot size 0 the amount is returned unchanged. -/
theorem round_to_lot_spec (x L : ℚ) (d : ℕ) (hx : 0 ≤ x) (hL : 0 < L)
    (hd : ∃ k : ℤ, L * 10 ^ d = k) :
    (∃ n : ℕ, round_to_lot_str x L d = n * L) ∧
    round_to_lot_str x L d ≤ x ∧
    round_to_lot x 0 = x := by
  obtain ⟨k, hk⟩ := hd
  have hLne : ¬ L ≤ 0 := not_le.mpr hL
  have hfloor0 : 0 ≤ ⌊x / L⌋ := Int.floor_nonneg.mpr (div_nonneg hx hL.le)
  have hval : round_to_lot x L = (⌊x / L⌋ : ℚ) * L := by
    unfold round_to_lot; rw [if_neg hLne]
  have hint : round_to_lot x L * 10 ^ d = ((⌊x / L⌋ * k : ℤ) : ℚ) := by
    rw [hval]
    push_cast
    rw [← hk]
    ring
  have hstr : round_to_lot_str x L d = round_to_lot x L := by
    unfold round_to_lot_str
    rw [if_neg hLne, formatFixed_exact _ _ _ hint]
  refine ⟨⟨⌊x / L⌋.toNat, ?_⟩, ?_, ?_⟩
  · rw [hstr, hval]
    congr 1
    exact_mod_cast (Int.toNat_of_nonneg hfloor0).symm
  · rw [hstr, hval]
    calc (⌊x / L⌋ : ℚ) * L ≤ x / L * L :=
          mul_le_mul_of_nonneg_right (Int.floor_le _) hL.le
      _ = x := div_mul_cancel₀ x (ne_of_gt hL)
  · unfold round_to_lot
    rw [if_pos le_rfl]

/-- C3 witness: x = 3.07, lot size 0.1, one decimal digit. -/
theorem round_to_lot_spec_witness :
    round_to_lot_str (307 / 100) (1 / 10) 1 ≤ 307 / 100 ∧
    round_to_lot (307 / 100) 0 = 307 / 100 :=
  ⟨(round_to_lot_spec (307 / 100) (1 / 10) 1 (by norm_num) (by norm_num)
      ⟨1, by norm_num⟩).2.1,
   (round_to_lot_spec (307 / 100) (1 / 10) 1 (by norm_num) (by norm_num)
      ⟨1, by norm_num⟩).2.2⟩

/-- Every leverage value sent by a recovery scan is one of its candidates. -/
theorem scanTry_mem (env : LevEnv) :
    ∀ cands : List ℤ, ∀ v ∈ (scanTry env cands).2, v ∈ cands := by
  intro cands
  induction cands with
  | nil => intro v hv; simp [scanTry] at hv
  | cons c rest ih =>
    intro v hv
    unfold scanTry at hv
    cases h : env.upd c <;> rw [h] at hv <;> simp at hv
    case ok => simp [hv]
    all_goals
      rcases hv with hv | hv
      · simp [hv]
      · exact List.mem_cons_of_mem _ (ih v hv)

/-- Members of `intRange lo hi` are at least `lo`. -/
theorem intRange_le (lo hi v : ℤ) (hv : v ∈ intRange lo hi) : lo ≤ v := by
  unfold intRange at hv
  obtain ⟨i, _, hvi⟩ := List.mem_map.mp hv
  omega

/-- Members of the upward scan candidates are strictly above the starting
leverage. -/
theorem upCands_lt (m lev v : ℤ) (hv : v ∈ upCands (some m) lev) :
    lev + 1 ≤ v := by
  simp only [upCands] at hv
  by_cases hm : m = 0
  · rw [if_pos hm] at hv
    simp at hv
  · rw [if_neg hm] at hv
    exact intRange_le _ _ _ hv

/-- A reported open-position leverage implies an open position was found. -/
theorem openPosLeverage_isSome (symbol : String) (ps : List Position) (k : ℤ)
    (h : openPosLeverage symbol ps = some k) :
    (firstOpenPos symbol ps).isSome = true := by
  unfold openPosLeverage at h
  cases hfp : firstOpenPos symbol ps with
  | none => rw [hfp] at h; simp at h
  | some p => rfl

/-- With the positions re-query reporting an open position of leverage `k`
and invalid-leverage rejections surfacing as `ApiError` (never as a generic
exception), every request issued by `setLeverageIssue` starting at a value
at least `k` carries a value at least `k`. -/
theorem setLeverageIssue_ge (env : LevEnv) (sym : String) (k m lev : ℤ)
    (h2 : openPosLeverage sym env.positionsOnError = some k)
    (hM : env.maxLev = some m)
    (hExc : ∀ v, env.upd v ≠ UpdResult.excInvalid) (hlev : k ≤ lev) :
    ∀ v ∈ (setLeverageIssue env sym lev).2, k ≤ v := by
  intro v hv
  unfold setLeverageIssue at hv
  cases hupd : env.upd lev <;> rw [hupd] at hv
  case excInvalid => exact absurd hupd (hExc lev)
  case ok => simp at hv; omega
  case apiOther => simp at hv; omega
  case excOther => simp at hv; omega
  case apiInvalid =>
    rw [openPosLeverage_isSome sym env.positionsOnError k h2, h2] at hv
    simp only at hv
    split at hv
    · simp at hv; omega
    · simp only [List.mem_cons] at hv
      rcases hv with hv | hv
      · omega
      · have h3 := scanTry_mem env _ v hv
        rw [hM] at h3
        have := upCands_lt m lev v h3
        omega

/-- The clamp never drops below an open-position leverage `k` that lies
within the market bounds. -/
theorem clampLev_ge (k m lev0 : ℤ) (hKM : k ≤ m) (hK1 : 1 ≤ k)
    (hlev : k ≤ lev0) : k ≤ clampLev (some m) lev0 := by
  simp only [clampLev]
  split
  · omega
  · split
    · omega
    · split <;> omega

/-- `setLeverageFrom` version of `setLeverageIssue_ge`. -/
theorem setLeverageFrom_ge (env : LevEnv) (sym : String) (k m lev0 : ℤ)
    (h2 : openPosLeverage sym env.positionsOnError = some k)
    (hM : env.maxLev = some m) (hKM : k ≤ m) (hK1 : 1 ≤ k)
    (hExc : ∀ v, env.upd v ≠ UpdResult.excInvalid) (hlev : k ≤ lev0) :
    ∀ v ∈ (setLeverageFrom env sym lev0).2, k ≤ v := by
  have hclamp : k ≤ clampLev env.maxLev lev0 := by
    rw [hM]; exact clampLev_ge k m lev0 hKM hK1 hlev
  unfold setLeverageFrom
  exact setLeverageIssue_ge env sym k m _ h2 hM hExc hclamp

/-- C2 counterexample.  With an open 3x BTC position reported by every
positions query and an exchange whose invalid-leverage rejection surfaces as
a generic exception, `set_leverage(BTC, 4)` runs the downward recovery scan
and sends the exchange a leverage-update request carrying the value 2,
strictly below the position's current leverage 3. -/
theorem set_leverage_only_increase_cex :
    openPosLeverage "BTC" envLevExc.positionsPre = some 3 ∧
    (set_leverage envLevExc "BTC" 4).2 = [4, 3, 2, 1] ∧
    2 ∈ (set_leverage envLevExc "BTC" 4).2 ∧ (2 : ℤ) < 3 := by
  refine ⟨by decide, by decide, by decide, by decide⟩

/-- C2 amended.  `set_leverage` never issues a leverage-update request below
the open position's current leverage `k` provided the rejection-recovery
paths see what the claim presumes: the invalid-leverage rejection arrives as
an `ApiError` (the generic-exception handler scans downward without
consulting positions), the handler's positions re-query still reports the
position with leverage `k`, and `k` lies within the market's leverage
bounds. -/
theorem set_leverage_only_increase_amended (env : LevEnv) (sym : String)
    (requested k m : ℤ)
    (h1 : openPosLeverage sym env.positionsPre = some k)
    (h2 : openPosLeverage sym env.positionsOnError = some k)
    (hM : env.maxLev = some m) (hKM : k ≤ m) (hK1 : 1 ≤ k)
    (hExc : ∀ v, env.upd v ≠ UpdResult.excInvalid) :
    ∀ v ∈ (set_leverage env sym requested).2, k ≤ v := by
  intro v hv
  unfold set_leverage at hv
  rw [h1] at hv
  simp only at hv
  split at hv
  · exact setLeverageFrom_ge env sym k m k h2 hM hKM hK1 hExc le_rfl v hv
  · split at hv
    · simp at hv
    · refine setLeverageFrom_ge env sym k m requested h2 hM hKM hK1 hExc ?_ v hv
      omega

/-- C2 amended witness: accepting exchange, open 3x BTC position, request 2
is raised to 3 and the only issued value is 3. -/
theorem set_leverage_only_increase_amended_witness :
    (3 : ℤ) ≤ 3 ∧ (set_leverage envLevOk "BTC" 2).2 = [3] :=
  ⟨set_leverage_only_increase_amended envLevOk "BTC" 2 3 10 (by decide)
      (by decide) (by decide) (by norm_num) (by norm_num)
      (fun v h => UpdResult.noConfusion h) 3 (by decide),
   by decide⟩

/-- C5.  On the direct path: when the positions query reports an open
position with leverage `k` on the symbol, any request below `k` results in a
single leverage-update request carrying exactly `k`, reported successful;
and with no open position on the symbol, a request above the market maximum
results in a single request carrying exactly the maximum. -/
theorem set_leverage_floor_and_clamp (env : LevEnv) (sym : String)
    (requested k m : ℤ) :
    (openPosLeverage sym env.positionsPre = some k → requested < k →
      env.maxLev = some m → k ≤ m → 1 ≤ k → env.upd k = UpdResult.ok →
      set_leverage env sym requested = (true, [k])) ∧
    (firstOpenPos sym env.positionsPre = none → env.maxLev = some m →
      1 ≤ m → m < requested → env.upd m = UpdResult.ok →
      set_leverage env sym requested = (true, [m])) := by
  constructor
  · intro h1 hreq hM hKM hK1 hok
    have hm0 : m ≠ 0 := by omega
    have hclamp : clampLev env.maxLev k = k := by
      rw [hM]
      simp only [clampLev]
      rw [if_neg hm0, if_neg (by omega : ¬ m < k), if_neg (by omega : ¬ k < 1)]
    unfold set_leverage
    rw [h1]
    simp only [if_pos hreq]
    unfold setLeverageFrom
    rw [hclamp]
    unfold setLeverageIssue
    rw [hok]
  · intro h1 hM hm1 hreq hok
    have hm0 : m ≠ 0 := by omega
    have hnone : openPosLeverage sym env.positionsPre = none := by
      unfold openPosLeverage
      rw [h1]
      rfl
    have hclamp : clampLev env.maxLev requested = m := by
      rw [hM]
      simp only [clampLev]
      rw [if_neg hm0, if_pos hreq]
    unfold set_leverage
    rw [hnone]
    unfold setLeverageFrom
    rw [hclamp]
    unfold setLeverageIssue
    rw [hok]

/-- C5 witness: with the open 3x position a request of 2 applies 3; with no
position a request of 20 against maximum 10 applies exactly 10. -/
theorem set_leverage_floor_and_clamp_witness :
    set_leverage envLevOk "BTC" 2 = (true, [3]) ∧
    set_leverage envLevFlat "BTC" 20 = (true, [10]) :=
  ⟨(set_leverage_floor_and_clamp envLevOk "BTC" 2 3 10).1 (by decide)
      (by norm_num) (by decide) (by norm_num) (by norm_num) (by decide),
   (set_leverage_floor_and_clamp envLevFlat "BTC" 20 3 10).2 (by decide)
      (by decide) (by norm_num) (by norm_num) (by decide)⟩

/-- C6.  At any polling iteration the loop actually reaches before `max_wait`
elapses, if the positions query reports a position on the target market with
amount magnitude above the 1e-6 threshold, the loop returns that position's
entry price at once — no cancellation (and in particular no timed-out
cancellation) is ever appended to the trace of that execution. -/
theorem wait_fill_position_signal (env : FillEnv) (market : String)
    (side : Side) (currentPrice : ℚ) (fuel : ℕ) (s : FillState) (p : Position)
    (ht : s.totalElapsed < maxWait)
    (hp : firstNonFlat market (env.positions s.iter) = some p) :
    fillGo env market side currentPrice (fuel + 1) s =
      (some p.entryPrice, s.events) := by
  have hstep : fillStep env market side currentPrice s =
      StepRes.done (some p.entryPrice, s.events) := by
    unfold fillStep
    rw [hp]
  unfold fillGo
  rw [if_neg (by omega), hstep]

/-- C6 witness: a non-flat BTC position at the first poll resolves the wait
immediately with its entry price 100 and an empty action trace. -/
theorem wait_fill_position_signal_witness :
    fillGo envFillPos "BTC" Side.bid 100 300 fillStart =
      (some (100 : ℚ), []) :=
  wait_fill_position_signal envFillPos "BTC" Side.bid 100 299 fillStart
    posFillBTC (by norm_num [fillStart, maxWait]) (by decide)

/-- An iteration that terminates the loop leaves the trace unchanged (a
fill was resolved) or appends exactly the stale-order cancellation (the
replacement placement failed). -/
theorem fillStep_done_events (env : FillEnv) (market : String) (side : Side)
    (currentPrice : ℚ) (s : FillState) (r : Option ℚ × List FillEvent)
    (h : fillStep env market side currentPrice s = StepRes.done r) :
    r.2 = s.events ∨
    r.2 = s.events ++ [FillEvent.cancelStale s.orderId] := by
  unfold fillStep at h
  split at h
  · cases h
    exact Or.inl rfl
  · split at h
    · cases h
      exact Or.inl rfl
    · split at h
      · split at h
        · cases h
        · cases h
          exact Or.inr rfl
      · cases h

/-- An iteration that continues either leaves the trace and the reposition
flag unchanged, or performs the one reposition: it fires only with the flag
still clear, the inner elapsed counter at least `reposition_timeout` and
more than 60 seconds of budget left, and it appends exactly the stale-order
cancellation and the reposition record. -/
theorem fillStep_next_events (env : FillEnv) (market : String) (side : Side)
    (currentPrice : ℚ) (s s1 : FillState)
    (h : fillStep env market side currentPrice s = StepRes.next s1) :
    (s1.events = s.events ∧ s1.repositioned = s.repositioned) ∨
    (s.repositioned = false ∧ s1.repositioned = true ∧
     repositionTimeout ≤ s.elapsed ∧ s.totalElapsed < maxWait - 60 ∧
     s1.events = s.events ++
       [FillEvent.cancelStale s.orderId,
        FillEvent.reposition s.elapsed s.totalElapsed]) := by
  unfold fillStep at h
  split at h
  · cases h
  · split at h
    · cases h
    · split at h
      · rename_i hguard
        split at h
        · cases h
          exact Or.inr ⟨hguard.2.1, rfl, hguard.1, hguard.2.2, rfl⟩
        · cases h
      · cases h
        exact Or.inl ⟨rfl, rfl⟩

/-- Across the whole loop, the number of repositions in the trace does not
grow when the flag is already set, and grows by at most one otherwise. -/
theorem fillGo_repos_count (env : FillEnv) (market : String) (side : Side)
    (currentPrice : ℚ) :
    ∀ fuel s,
      (s.repositioned = true →
        ((fillGo env market side currentPrice fuel s).2.countP
          isRepositionEvent) ≤ s.events.countP isRepositionEvent) ∧
      ((fillGo env market side currentPrice fuel s).2.countP
        isRepositionEvent) ≤ s.events.countP isRepositionEvent + 1 := by
  intro fuel
  induction fuel with
  | zero =>
    intro s
    have h1 : ((s.events ++ [FillEvent.cancelTimeout s.orderId]).countP
        isRepositionEvent) = s.events.countP isRepositionEvent := by
      simp [List.countP_append, List.countP_cons, isRepositionEvent]
    simp only [fillGo, h1]
    omega
  | succ n ih =>
    intro s
    rw [fillGo]
    split
    · have h1 : ((s.events ++ [FillEvent.cancelTimeout s.orderId]).countP
          isRepositionEvent) = s.events.countP isRepositionEvent := by
        simp [List.countP_append, List.countP_cons, isRepositionEvent]
      simp only [h1]
      omega
    · cases hstep : fillStep env market side currentPrice s with
      | done r =>
        have h4 : r.2.countP isRepositionEvent =
            s.events.countP isRepositionEvent := by
          rcases fillStep_done_events env market side currentPrice s r hstep
              with h | h <;>
            simp [h, List.countP_append, List.countP_cons, isRepositionEvent]
        rw [h4]
        omega
      | next s1 =>
        have ih1 := ih s1
        rcases fillStep_next_events env market side currentPrice s s1 hstep
            with ⟨he, hr⟩ | ⟨hr0, hr1, _, _, he⟩
        · rw [he, hr] at ih1
          exact ih1
        · have h2 : s1.events.countP isRepositionEvent =
              s.events.countP isRepositionEvent + 1 := by
            rw [he]
            simp [List.countP_append, List.countP_cons, isRepositionEvent]
          have h3 := (ih s1).1 hr1
          rw [h2] at h3
          rw [hr0]
          exact ⟨fun hcontra => Bool.noConfusion hcontra, h3⟩

/-- Every reposition recorded by the loop respects the reposition guard,
provided the incoming trace does. -/
theorem fillGo_repos_guard (env : FillEnv) (market : String) (side : Side)
    (currentPrice : ℚ) :
    ∀ fuel s, (∀ e ∈ s.events, reposGuardOk e) →
      ∀ e ∈ (fillGo env market side currentPrice fuel s).2, reposGuardOk e := by
  intro fuel
  induction fuel with
  | zero =>
    intro s hs e he
    simp only [fillGo] at he
    rcases List.mem_append.mp he with h | h
    · exact hs e h
    · simp only [List.mem_singleton] at h
      subst h
      trivial
  | succ n ih =>
    intro s hs e he
    rw [fillGo] at he
    split at he
    · rcases List.mem_append.mp he with h | h
      · exact hs e h
      · simp only [List.mem_singleton] at h
        subst h
        trivial
    · revert he
      cases hstep : fillStep env market side currentPrice s with
      | done r =>
        intro he
        rcases fillStep_done_events env market side currentPrice s r hstep
            with h | h
        · rw [h] at he
          exact hs e he
        · rw [h] at he
          rcases List.mem_append.mp he with h1 | h1
          · exact hs e h1
          · simp only [List.mem_singleton] at h1
            subst h1
            trivial
      | next s1 =>
        intro he
        refine ih s1 ?_ e he
        intro e1 he1
        rcases fillStep_next_events env market side currentPrice s s1 hstep
            with ⟨hev, _⟩ | ⟨_, _, hg1, hg2, hev⟩
        · rw [hev] at he1
          exact hs e1 he1
        · rw [hev] at he1
          rcases List.mem_append.mp he1 with h1 | h1
          · exact hs e1 h1
          · rcases List.mem_cons.mp h1 with h2 | h2
            · subst h2
              trivial
            · simp only [List.mem_singleton] at h2
              subst h2
              exact ⟨hg1, hg2⟩

/-- With no fill signal at any iteration (empty positions, open-orders
queries failing) and replacement placements succeeding, one iteration always
continues, without recording any timeout cancellation. -/
theorem fillStep_no_signal (env : FillEnv) (market : String) (side : Side)
    (currentPrice : ℚ) (s : FillState)
    (hp : env.positions s.iter = [])
    (ho : env.openOrders s.iter = none)
    (hpl : (env.placeOrder s.iter).isSome = true) :
    ∃ s1, fillStep env market side currentPrice s = StepRes.next s1 ∧
      s1.events.countP isTimeoutCancel = s.events.countP isTimeoutCancel := by
  have hfn : firstNonFlat market (env.positions s.iter) = none := by
    rw [hp]
    rfl
  have hos : ordersSignal env market s = none := by
    unfold ordersSignal
    rw [ho]
  by_cases hg : repositionTimeout ≤ s.elapsed ∧ s.repositioned = false ∧
      s.totalElapsed < maxWait - 60
  · cases hplc : env.placeOrder s.iter with
    | none =>
      rw [hplc] at hpl
      simp at hpl
    | some nid =>
      refine ⟨{ orderId := nid
                limitPrice := newFillLimit env side currentPrice s
                elapsed := checkInterval
                totalElapsed := s.totalElapsed + checkInterval
                repositioned := true
                iter := s.iter + 1
                events := s.events ++
                  [FillEvent.cancelStale s.orderId,
                   FillEvent.reposition s.elapsed s.totalElapsed] }, ?_, ?_⟩
      · simp only [fillStep, hfn, hos, hplc, if_pos hg]
      · simp [List.countP_append, List.countP_cons, isTimeoutCancel]
  · refine ⟨{ s with
        elapsed := s.elapsed + checkInterval
        totalElapsed := s.totalElapsed + checkInterval
        iter := s.iter + 1 }, ?_, rfl⟩
    simp only [fillStep, hfn, hos, if_neg hg]

/-- With no fill signal for the whole budget the loop reports no fill and
records exactly one more timeout cancellation than it started with. -/
theorem fillGo_no_signal (env : FillEnv) (market : String) (side : Side)
    (currentPrice : ℚ)
    (hp : ∀ n, env.positions n = [])
    (ho : ∀ n, env.openOrders n = none)
    (hpl : ∀ n, (env.placeOrder n).isSome = true) :
    ∀ fuel s, (fillGo env market side currentPrice fuel s).1 = none ∧
      ((fillGo env market side currentPrice fuel s).2.countP isTimeoutCancel)
        = s.events.countP isTimeoutCancel + 1 := by
  intro fuel
  induction fuel with
  | zero =>
    intro s
    refine ⟨rfl, ?_⟩
    simp [fillGo, List.countP_append, List.countP_cons, isTimeoutCancel]
  | succ n ih =>
    intro s
    rw [fillGo]
    split
    · refine ⟨rfl, ?_⟩
      simp [List.countP_append, List.countP_cons, isTimeoutCancel]
    · obtain ⟨s1, hstep, hcnt⟩ := fillStep_no_signal env market side
        currentPrice s (hp s.iter) (ho s.iter) (hpl s.iter)
      rw [hstep]
      exact ⟨(ih s1).1, by rw [(ih s1).2, hcnt]⟩

/-- C7.  In any single execution of the limit-order wait loop, at most one
reposition ever occurs; every reposition happens only with the inner elapsed
counter at `reposition_timeout` or beyond and strictly more than 60 seconds
of the `max_wait` budget remaining; and when no fill signal ever appears
(and replacement placements succeed), the pending order is cancelled exactly
once on budget exhaustion and the loop returns no fill. -/
theorem wait_fill_reposition_policy (env : FillEnv) (market : String)
    (side : Side) (orderId : ℕ) (limitPrice currentPrice : ℚ) :
    ((wait_for_order_fill env market side orderId limitPrice
        currentPrice).2.countP isRepositionEvent ≤ 1) ∧
    (∀ e ∈ (wait_for_order_fill env market side orderId limitPrice
        currentPrice).2, reposGuardOk e) ∧
    ((∀ n, env.positions n = []) → (∀ n, env.openOrders n = none) →
      (∀ n, (env.placeOrder n).isSome = true) →
      (wait_for_order_fill env market side orderId limitPrice
          currentPrice).1 = none ∧
      ((wait_for_order_fill env market side orderId limitPrice
          currentPrice).2.countP isTimeoutCancel) = 1) := by
  refine ⟨?_, ?_, ?_⟩
  · have h := (fillGo_repos_count env market side currentPrice maxWait
      { orderId := orderId, limitPrice := limitPrice, elapsed := 0,
        totalElapsed := 0, repositioned := false, iter := 0, events := [] }).2
    simpa [wait_for_order_fill] using h
  · intro e he
    exact fillGo_repos_guard env market side currentPrice maxWait
      { orderId := orderId, limitPrice := limitPrice, elapsed := 0,
        totalElapsed := 0, repositioned := false, iter := 0, events := [] }
      (by intro e1 he1; cases he1) e he
  · intro hp ho hpl
    have h := fillGo_no_signal env market side currentPrice hp ho hpl maxWait
      { orderId := orderId, limitPrice := limitPrice, elapsed := 0,
        totalElapsed := 0, repositioned := false, iter := 0, events := [] }
    simpa [wait_for_order_fill] using h

/-- C7 witness: in the silent environment the loop returns no fill and
cancels the pending order exactly once. -/
theorem wait_fill_reposition_policy_witness :
    (wait_for_order_fill envFillSilent "BTC" Side.bid 1 100 100).1 = none ∧
    ((wait_for_order_fill envFillSilent "BTC" Side.bid 1 100
        100).2.countP isTimeoutCancel) = 1 :=
  (wait_fill_reposition_policy envFillSilent "BTC" Side.bid 1 100 100).2.2
    (fun _ => rfl) (fun _ => rfl) (fun _ => rfl)

/-- Every run of `trading_cycle` either leaves all three statistics
unchanged, or it ran the full successful path — confirmed close, a filled
entry, an available exit price — and then adds exactly twice the cycle's
leveraged notional to the volume and one to the trade count. -/
theorem trading_cycle_stats (env : CycleEnv) (s : BotState) :
    ((trading_cycle env s).2.totalVolume = s.totalVolume ∧
     (trading_cycle env s).2.totalPnl = s.totalPnl ∧
     (trading_cycle env s).2.tradesCount = s.tradesCount) ∨
    (env.closeOk = true ∧ env.entryOk = true ∧
     env.fillPrice.isSome = true ∧ env.exitPrice.isSome = true ∧
     ∃ b, effectiveBalance s.cachedBalance env.fetchedBalance = some b ∧
       0 < b ∧
       (trading_cycle env s).2.totalVolume = s.totalVolume +
         (positionSizing b env.positionPercent s.currentLeverage
           s.useMakerOrders).2 * 2 ∧
       (trading_cycle env s).2.tradesCount = s.tradesCount + 1) := by
  have hcache : (cacheBalance env s).totalVolume = s.totalVolume ∧
      (cacheBalance env s).totalPnl = s.totalPnl ∧
      (cacheBalance env s).tradesCount = s.tradesCount ∧
      (cacheBalance env s).currentLeverage = s.currentLeverage ∧
      (cacheBalance env s).useMakerOrders = s.useMakerOrders := by
    unfold cacheBalance
    split
    · exact ⟨rfl, rfl, rfl, rfl, rfl⟩
    · split
      · exact ⟨rfl, rfl, rfl, rfl, rfl⟩
      · exact ⟨rfl, rfl, rfl, rfl, rfl⟩
  obtain ⟨hv1, hp1, hc1, hl1, hm1⟩ := hcache
  have hres : ∀ s2 : BotState, (cycleResult s2).2 = s2 := by
    intro s2
    unfold cycleResult
    split <;> rfl
  by_cases htgt : s.targetVolume ≤ s.totalVolume
  · left
    simp only [trading_cycle, if_pos htgt]
    exact ⟨trivial, trivial, trivial⟩
  · rcases hmk : env.market with _ | market
    · left
      simp only [trading_cycle, if_neg htgt, hmk]
      exact ⟨trivial, trivial, trivial⟩
    rcases hsd : env.side with _ | side
    · left
      simp only [trading_cycle, if_neg htgt, hmk, hsd]
      exact ⟨trivial, trivial, trivial⟩
    rcases hb : effectiveBalance s.cachedBalance env.fetchedBalance
      with _ | balance
    · left
      simp only [trading_cycle, if_neg htgt, hmk, hsd, hb]
      exact ⟨hv1, hp1, hc1⟩
    by_cases hb0 : balance ≤ 0
    · left
      simp only [trading_cycle, if_neg htgt, hmk, hsd, hb, if_pos hb0]
      exact ⟨hv1, hp1, hc1⟩
    rcases hcp : env.currentPrice with _ | currentPrice
    · left
      simp only [trading_cycle, if_neg htgt, hmk, hsd, hb, if_neg hb0, hcp]
      exact ⟨hv1, hp1, hc1⟩
    cases hent : env.entryOk with
    | false =>
      left
      simp only [trading_cycle, if_neg htgt, hmk, hsd, hb, if_neg hb0, hcp,
        hent]
      exact ⟨hv1, hp1, hc1⟩
    | true =>
      rcases hfp : env.fillPrice with _ | entryPrice
      · left
        simp only [trading_cycle, if_neg htgt, hmk, hsd, hb, if_neg hb0, hcp,
          hent, hfp]
        exact ⟨hv1, hp1, hc1⟩
      cases hco : env.closeOk with
      | false =>
        left
        simp only [trading_cycle, if_neg htgt, hmk, hsd, hb, if_neg hb0, hcp,
          hent, hfp, hco]
        exact ⟨hv1, hp1, hc1⟩
      | true =>
        rcases hep : env.exitPrice with _ | exitPrice
        · left
          simp only [trading_cycle, if_neg htgt, hmk, hsd, hb, if_neg hb0,
            hcp, hent, hfp, hco, hep]
          exact ⟨hv1, hp1, hc1⟩
        right
        have hcomp : trading_cycle env s = cycleResult (closeStats side
            entryPrice exitPrice balance env.positionPercent
            (cacheBalance env s)) := by
          simp only [trading_cycle, if_neg htgt, hmk, hsd, hb, if_neg hb0,
            hcp, hent, hfp, hco, hep]
        refine ⟨rfl, rfl, rfl, rfl, balance, rfl, not_le.mp hb0, ?_, ?_⟩
        · rw [hcomp, hres]
          show (cacheBalance env s).totalVolume +
            (positionSizing balance env.positionPercent
              (cacheBalance env s).currentLeverage
              (cacheBalance env s).useMakerOrders).2 * 2 = _
          rw [hv1, hl1, hm1]
        · rw [hcomp, hres]
          show (cacheBalance env s).tradesCount + 1 = _
          rw [hc1]

/-- C8.  `total_volume` changes during a cycle only when `close_position`
reported success and the entry order had filled (`_wait_for_order_fill`
returned a price); the change then adds exactly twice the cycle's leveraged
notional, and `trades_count` is incremented by one at the same point. -/
theorem trading_cycle_volume_accounting (env : CycleEnv) (s : BotState)
    (h : (trading_cycle env s).2.totalVolume ≠ s.totalVolume) :
    env.closeOk = true ∧ env.fillPrice.isSome = true ∧
    ∃ b, effectiveBalance s.cachedBalance env.fetchedBalance = some b ∧
      (trading_cycle env s).2.totalVolume = s.totalVolume +
        (positionSizing b env.positionPercent s.currentLeverage
          s.useMakerOrders).2 * 2 ∧
      (trading_cycle env s).2.tradesCount = s.tradesCount + 1 := by
  rcases trading_cycle_stats env s with ⟨hv, _, _⟩ |
      ⟨hco, _, hfp, _, b, hb, _, hvol, hcnt⟩
  · exact absurd hv h
  · exact ⟨hco, hfp, b, hb, hvol, hcnt⟩

/-- C8 witness: the fully successful cycle moves the volume (0 to 5000), so
it went through a confirmed close of a filled entry. -/
theorem trading_cycle_volume_accounting_witness :
    envCycleFull.closeOk = true ∧ envCycleFull.fillPrice.isSome = true := by
  have hNe : (trading_cycle envCycleFull stateFresh).2.totalVolume ≠
      stateFresh.totalVolume := by
    norm_num [trading_cycle, envCycleFull, stateFresh, effectiveBalance,
      truthy, cacheBalance, cycleResult, closeStats, positionSizing,
      calculate_pnl, feeRate, safetyBuffer, min_def]
  have h := trading_cycle_volume_accounting envCycleFull stateFresh hNe
  exact ⟨h.1, h.2.1⟩

/-- C10.  When the entry filled and the close succeeded but the exit-price
fetch returned nothing, the cycle leaves `total_volume`, `total_pnl` and
`trades_count` all unchanged: the completed round trip contributes nothing
to the run statistics. -/
theorem trading_cycle_exit_price_frame (env : CycleEnv) (s : BotState)
    (p : ℚ) (_hf : env.fillPrice = some p) (_hc : env.closeOk = true)
    (he : env.exitPrice = none) :
    (trading_cycle env s).2.totalVolume = s.totalVolume ∧
    (trading_cycle env s).2.totalPnl = s.totalPnl ∧
    (trading_cycle env s).2.tradesCount = s.tradesCount := by
  rcases trading_cycle_stats env s with h | ⟨_, _, _, hep, _⟩
  · exact h
  · rw [he] at hep
    simp at hep

/-- C10 witness: the successful cycle with a failed exit-price fetch leaves
all three statistics of the fresh state unchanged. -/
theorem trading_cycle_exit_price_frame_witness :
    (trading_cycle envCycleNoExit stateFresh).2.totalVolume =
      stateFresh.totalVolume ∧
    (trading_cycle envCycleNoExit stateFresh).2.totalPnl =
      stateFresh.totalPnl ∧
    (trading_cycle envCycleNoExit stateFresh).2.tradesCount =
      stateFresh.tradesCount :=
  trading_cycle_exit_price_frame envCycleNoExit stateFresh 100 rfl rfl rfl

/-- Every network attempt made by the retry loop lies in the window given by
the starting attempt and the remaining fuel. -/
theorem getPositionsGo_call_bound (env : ℕ → PosAttempt) (jitter : ℕ → ℚ)
    (fastMode : Bool) (retries : ℕ) :
    ∀ fuel a k,
      GPEvent.call k ∈ (getPositionsGo env jitter fastMode retries a fuel).2 →
      a ≤ k ∧ k < a + fuel := by
  intro fuel
  induction fuel with
  | zero =>
    intro a k hk
    simp [getPositionsGo] at hk
  | succ n ih =>
    intro a k hk
    cases henv : env a with
    | ok ps =>
      simp only [getPositionsGo, henv] at hk
      simp at hk
      omega
    | err msg =>
      simp only [getPositionsGo, henv] at hk
      split at hk
      · split at hk
        · simp at hk
          rcases hk with hk | hk
          · omega
          · have := ih (a + 1) k hk
            omega
        · simp at hk
          omega
      · simp at hk
        omega

/-- A further attempt is made only after a retryable rate-limit / edge-block
exception on the previous one. -/
theorem getPositionsGo_retry_reason (env : ℕ → PosAttempt) (jitter : ℕ → ℚ)
    (fastMode : Bool) (retries : ℕ) :
    ∀ fuel a k, a ≤ k →
      GPEvent.call (k + 1) ∈
        (getPositionsGo env jitter fastMode retries a fuel).2 →
      ∃ msg, env k = PosAttempt.err msg ∧ retryableMsg msg = true := by
  intro fuel
  induction fuel with
  | zero =>
    intro a k hak hk
    simp [getPositionsGo] at hk
  | succ n ih =>
    intro a k hak hk
    cases henv : env a with
    | ok ps =>
      simp only [getPositionsGo, henv] at hk
      simp at hk
      omega
    | err msg =>
      simp only [getPositionsGo, henv] at hk
      split at hk
      · rename_i hr
        split at hk
        · simp at hk
          rcases hk with hk | hk
          · omega
          · rcases Nat.eq_or_lt_of_le hak with heq | hlt2
            · subst heq
              exact ⟨msg, henv, hr⟩
            · exact ih (a + 1) k hlt2 hk
        · simp at hk
          omega
      · simp at hk
        omega

/-- Every backoff wait recorded by the loop is at most the cap (10 seconds
in fast mode, 15 otherwise). -/
theorem getPositionsGo_wait_capped (env : ℕ → PosAttempt) (jitter : ℕ → ℚ)
    (fastMode : Bool) (retries : ℕ) :
    ∀ fuel a w,
      GPEvent.wait w ∈ (getPositionsGo env jitter fastMode retries a fuel).2 →
      w ≤ (if fastMode then 10 else 15) := by
  intro fuel
  induction fuel with
  | zero =>
    intro a w hw
    simp [getPositionsGo] at hw
  | succ n ih =>
    intro a w hw
    cases henv : env a with
    | ok ps =>
      simp only [getPositionsGo, henv] at hw
      simp at hw
    | err msg =>
      simp only [getPositionsGo, henv] at hw
      split at hw
      · split at hw
        · simp at hw
          rcases hw with hw | hw
          · subst hw
            cases fastMode <;> simp [backoffWait, min_le_right]
          · exact ih (a + 1) w hw
        · simp at hw
      · simp at hw

/-- When every attempt in the window fails with a retryable condition, the
call degrades to the empty list. -/
theorem getPositionsGo_exhaust (env : ℕ → PosAttempt) (jitter : ℕ → ℚ)
    (fastMode : Bool) (retries : ℕ) :
    ∀ fuel a,
      (∀ k, a ≤ k → k < a + fuel →
        ∃ msg, env k = PosAttempt.err msg ∧ retryableMsg msg = true) →
      (getPositionsGo env jitter fastMode retries a fuel).1 = [] := by
  intro fuel
  induction fuel with
  | zero =>
    intro a _
    rfl
  | succ n ih =>
    intro a h
    obtain ⟨msg, henv, hr⟩ := h a le_rfl (by omega)
    simp only [getPositionsGo, henv, if_pos hr]
    split
    · exact ih (a + 1) fun k hk1 hk2 => h k (by omega) (by omega)
    · rfl

/-- An attempt that fails with a non-retryable exception makes the whole
call return the empty list with an error-level log, and no further attempt
follows it. -/
theorem getPositionsGo_fatal (env : ℕ → PosAttempt) (jitter : ℕ → ℚ)
    (fastMode : Bool) (retries : ℕ) :
    ∀ fuel a k msg, env k = PosAttempt.err msg → retryableMsg msg = false →
      GPEvent.call k ∈ (getPositionsGo env jitter fastMode retries a fuel).2 →
      (getPositionsGo env jitter fastMode retries a fuel).1 = [] ∧
      GPEvent.logError ∈
        (getPositionsGo env jitter fastMode retries a fuel).2 := by
  intro fuel
  induction fuel with
  | zero =>
    intro a k msg _ _ hk
    simp [getPositionsGo] at hk
  | succ n ih =>
    intro a k msg h1 h2 hk
    cases henv : env a with
    | ok ps =>
      simp only [getPositionsGo, henv] at hk
      simp at hk
      subst hk
      rw [henv] at h1
      cases h1
    | err msg2 =>
      by_cases hr : retryableMsg msg2 = true
      · by_cases hlt : a < retries - 1
        · simp only [getPositionsGo, henv, if_pos hr, if_pos hlt] at hk ⊢
          simp at hk
          rcases hk with hk | hk
          · subst hk
            rw [henv] at h1
            injection h1 with h1
            rw [← h1, hr] at h2
            cases h2
          · have hrec := ih (a + 1) k msg h1 h2 hk
            exact ⟨hrec.1,
              List.mem_cons_of_mem _ (List.mem_cons_of_mem _ hrec.2)⟩
        · simp only [getPositionsGo, henv, if_pos hr, if_neg hlt] at hk ⊢
          simp at hk
          subst hk
          rw [henv] at h1
          injection h1 with h1
          rw [← h1, hr] at h2
          cases h2
      · simp only [getPositionsGo, henv, if_neg hr]
        exact ⟨trivial, by simp⟩

/-- C9.  `get_positions` makes a further attempt only after a detected
rate-limit / edge-block exception; it never makes more attempts than its
retry budget; every backoff wait is capped (10 seconds in fast mode, 15
otherwise); when every attempt within the budget hits a retryable condition
the call degrades to the empty list; and any other exception makes the call
return the empty list at once, logged at error level.  The embedding is a
total function, matching the contract that `get_positions` never propagates
an exception. -/
theorem get_positions_retry_policy (env : ℕ → PosAttempt) (jitter : ℕ → ℚ)
    (fastMode : Bool) (retries : ℕ) :
    (∀ k, GPEvent.call (k + 1) ∈
        (get_positions env jitter fastMode retries).2 →
      ∃ msg, env k = PosAttempt.err msg ∧ retryableMsg msg = true) ∧
    (∀ k, GPEvent.call k ∈ (get_positions env jitter fastMode retries).2 →
      k < retries) ∧
    (∀ w, GPEvent.wait w ∈ (get_positions env jitter fastMode retries).2 →
      w ≤ (if fastMode then 10 else 15)) ∧
    ((∀ k, k < retries →
        ∃ msg, env k = PosAttempt.err msg ∧ retryableMsg msg = true) →
      (get_positions env jitter fastMode retries).1 = []) ∧
    (∀ k msg, env k = PosAttempt.err msg → retryableMsg msg = false →
      GPEvent.call k ∈ (get_positions env jitter fastMode retries).2 →
      (get_positions env jitter fastMode retries).1 = [] ∧
      GPEvent.logError ∈ (get_positions env jitter fastMode retries).2) := by
  refine ⟨?_, ?_, ?_, ?_, ?_⟩
  · intro k hk
    exact getPositionsGo_retry_reason env jitter fastMode retries retries 0 k
      (Nat.zero_le k) hk
  · intro k hk
    have := getPositionsGo_call_bound env jitter fastMode retries retries 0 k hk
    omega
  · intro w hw
    exact getPositionsGo_wait_capped env jitter fastMode retries retries 0 w hw
  · intro h
    exact getPositionsGo_exhaust env jitter fastMode retries retries 0
      fun k hk1 hk2 => h k (by omega)
  · intro k msg h1 h2 hk
    exact getPositionsGo_fatal env jitter fastMode retries retries 0 k msg
      h1 h2 hk

/-- C9 witness: with every attempt blocked by a 403 edge response, the
default three-attempt call returns the empty list. -/
theorem get_positions_retry_policy_witness :
    (get_positions (fun _ => PosAttempt.err "HTTP 403: blocked")
      (fun _ => 0) false 3).1 = [] :=
  (get_positions_retry_policy (fun _ => PosAttempt.err "HTTP 403: blocked")
      (fun _ => 0) false 3).2.2.2.1
    (fun _ _ => ⟨"HTTP 403: blocked", rfl, rfl⟩)

end Pacifica
